import Mathlib

/-!
Shallow embedding of the DRRN training orchestrator (`main.py`).

Python floats are modelled as exact rationals; Python's `ZeroDivisionError`
on float division is modelled by `Option` (`none` = the run raises).
The external collaborators (network forward/backward, loss, optimizer step,
gradient clipping) are modelled as one opaque per-batch step function over
abstract weight, optimizer-state and batch types, exactly as the orchestrator
sees them.  Epoch counters are naturals: the data model fixes
`current_epoch >= 1`.
-/

namespace DRRN

/-- Hyperparameters parsed by argparse in main.py (lines 13-25), with the
argparse defaults.  `resume` and `pretrained` are paths, empty string meaning
"not supplied" (Python string truthiness). -/
structure Config where
  batchSize : Nat := 128
  nEpochs : Nat := 50
  lr : ℚ := 1/10
  step : Nat := 5
  cuda : Bool := false
  resume : String := ""
  start_epoch : Nat := 1
  clip : ℚ := 1/100
  threads : Nat := 1
  momentum : ℚ := 9/10
  weight_decay : ℚ := 1/10000
  pretrained : String := ""

/-- main.py line 86: `lr = opt.lr * (0.5 ** (epoch // opt.step))`. -/
def adjust_learning_rate (cfg : Config) (epoch : Nat) : ℚ :=
  cfg.lr * (1/2) ^ (epoch / cfg.step)

/-- The learning rate `train` applies for a (1-based) epoch: main.py line 92
calls `adjust_learning_rate(optimizer, epoch-1)` and installs the result in
every parameter group (lines 93-94, a single uniform rate). -/
def epochLR (cfg : Config) (epoch : Nat) : ℚ :=
  adjust_learning_rate cfg (epoch - 1)

/-- The external collaborators as the orchestrator uses them per batch
(main.py lines 100-111): `step w s lr thr b` performs forward, loss,
`zero_grad`, backward, clipping of the gradient norm to threshold `thr`,
and `optimizer.step()`; it returns the new weights, the new optimizer
state and the scalar loss.  `initState` is the optimizer state as freshly
created by `optim.SGD` (line 74). -/
structure Collab (W S B : Type) where
  step : W → S → ℚ → ℚ → B → W × S × ℚ
  initState : S

/-- Python float division: raises `ZeroDivisionError` on a zero divisor. -/
def safeDiv (a b : ℚ) : Option ℚ :=
  if b = 0 then none else some (a / b)

/-- main.py line 109: `clip = opt.clip / lr`, computed for every batch. -/
def clipThreshold (clip lr : ℚ) : Option ℚ :=
  safeDiv clip lr

/-- The per-batch loop of `train` (main.py lines 99-114).
`enumerate(training_data_loader, 1)` starts the iteration counter at `i`
(called with 1); each batch computes `clip = opt.clip / lr`, performs one
collaborator step, and logs the pair (iteration, loss) exactly when
`iteration % 100 == 0` (line 112).  Returns the final weights, the final
optimizer state and the emitted log entries, or `none` if a division
raised. -/
def runBatches {W S B : Type} (c : Collab W S B) (lr clip : ℚ) :
    List B → W → S → Nat → Option (W × S × List (Nat × ℚ))
  | [], w, s, _ => some (w, s, [])
  | b :: bs, w, s, i =>
    match clipThreshold clip lr with
    | none => none
    | some thr =>
      let r := c.step w s lr thr b
      (runBatches c lr clip bs r.1 r.2.1 (i + 1)).map fun out =>
        (out.1, out.2.1, (if i % 100 = 0 then [(i, r.2.2)] else []) ++ out.2.2)

/-- `train` from main.py (lines 89-114): installs this epoch's learning rate
and runs the batch loop with the iteration counter starting at 1. -/
def train {W S B : Type} (c : Collab W S B) (cfg : Config) (batches : List B)
    (epoch : Nat) (w : W) (s : S) : Option (W × S × List (Nat × ℚ)) :=
  runBatches c (epochLR cfg epoch) cfg.clip batches w s 1

/-- Reference fold: the same sequence of collaborator steps with a fixed
learning rate and clip threshold, and no logging at all. -/
def stepAll {W S B : Type} (c : Collab W S B) (lr thr : ℚ) :
    List B → W × S → W × S
  | [], ws => ws
  | b :: bs, ws =>
    stepAll c lr thr bs ((c.step ws.1 ws.2 lr thr b).1, (c.step ws.1 ws.2 lr thr b).2.1)

/-- The on-disk checkpoint artifact written by `save_checkpoint`
(main.py line 119): `state = {"epoch": epoch, "model": model}`. -/
structure Checkpoint (W : Type) where
  epoch : Nat
  model : W
deriving DecidableEq

/-- The file system, as the orchestrator observes it: a map from paths to
checkpoint contents.  `os.path.isfile p` holds exactly when the map is
`some` at `p`. -/
def FS (W : Type) : Type := String → Option (Checkpoint W)

/-- main.py line 118: `"model/" + "model_epoch_{}.pth".format(epoch)`. -/
def modelOutPath (epoch : Nat) : String :=
  "model/model_epoch_" ++ Nat.repr epoch ++ ".pth"

/-- `save_checkpoint` (main.py lines 117-125): writes `{epoch, model}` at the
epoch's path (torch.save overwrites that path, other paths untouched). -/
def save_checkpoint {W : Type} (fs : FS W) (w : W) (epoch : Nat) : FS W :=
  fun p => if p = modelOutPath epoch then some ⟨epoch, w⟩ else fs p

/-- `torch.load` of a checkpoint file. -/
def load {W : Type} (fs : FS W) (p : String) : Option (Checkpoint W) :=
  fs p

/-- The epoch loop of `main` (lines 77-79): for each epoch in
`range(start_epoch, nEpochs + 1)`, run `train` and then `save_checkpoint`.
`batchesOf e` is the (shuffled) batch sequence the DataLoader yields in
epoch `e`; the fuel argument is the number of epochs remaining. -/
def runEpochs {W S B : Type} (c : Collab W S B) (cfg : Config)
    (batchesOf : Nat → List B) :
    Nat → Nat → W → S → FS W → Option (W × S × FS W)
  | 0, _, w, s, fs => some (w, s, fs)
  | n + 1, e, w, s, fs =>
    match train c cfg (batchesOf e) e w s with
    | none => none
    | some r => runEpochs c cfg batchesOf n (e + 1) r.1 r.2.1 (save_checkpoint fs r.1 e)

/-- The resume block of `main` (lines 55-62): if a resume path is supplied
and the file exists, set `start_epoch` to the stored epoch + 1 and load the
stored weights; if supplied but missing, log a not-found notice and keep
the configured start epoch and current weights. -/
def resumeStep {W : Type} (fs : FS W) (cfg : Config) (w : W) :
    Nat × W × List String :=
  if cfg.resume ≠ "" then
    match fs cfg.resume with
    | some ck => (ck.epoch + 1, ck.model, ["===> loading checkpoint: " ++ cfg.resume])
    | none => (cfg.start_epoch, w, ["===> no checkpoint found at " ++ cfg.resume])
  else (cfg.start_epoch, w, [])

/-- The pretrained block of `main` (lines 65-71): loads only the weights,
ignoring the stored epoch; logs a not-found notice when missing. -/
def pretrainedStep {W : Type} (fs : FS W) (cfg : Config) (w : W) :
    W × List String :=
  if cfg.pretrained ≠ "" then
    match fs cfg.pretrained with
    | some ck => (ck.model, ["===> load model " ++ cfg.pretrained])
    | none => (w, ["===> no model found at " ++ cfg.pretrained])
  else (w, [])

/-- Initialization order in `main`: the resume block runs first, then the
pretrained block is applied on top of its weights. -/
def mainInit {W : Type} (fs : FS W) (cfg : Config) (w : W) :
    Nat × W × List String :=
  (let r := resumeStep fs cfg w
   let p := pretrainedStep fs cfg r.2.1
   (r.1, p.1, r.2.2 ++ p.2))

/-- Observable outcome of one `main` invocation. -/
structure MainResult (W S : Type) where
  seedLine : String
  startEpoch : Nat
  initWeights : W
  outcome : Option (W × S × FS W)

/-- `main` from main.py as a function of the randomly drawn seed (line 36):
the seed is printed (line 37) and nothing else; then the resume/pretrained
initialization runs, and the epoch loop trains
`range(start_epoch, nEpochs + 1)` starting from the fresh optimizer state. -/
def mainRun {W S B : Type} (c : Collab W S B) (cfg : Config)
    (batchesOf : Nat → List B) (fs : FS W) (w0 : W) (seed : Nat) :
    MainResult W S :=
  let init := mainInit fs cfg w0
  { seedLine := "Random Seed:  " ++ Nat.repr seed
    startEpoch := init.1
    initWeights := init.2.1
    outcome := runEpochs c cfg batchesOf (cfg.nEpochs + 1 - init.1) init.1
      init.2.1 c.initState fs }

/-- Checkpoint files written by the epoch loop for epochs `e, e+1, ..., e+n-1`,
all storing weights `w`. -/
def saveRange {W : Type} (w : W) : FS W → Nat → Nat → FS W
  | fs, _, 0 => fs
  | fs, e, n + 1 => saveRange w (save_checkpoint fs w e) (e + 1) n

/-- A collaborator whose weight update does not read the optimizer state
(e.g. momentum-free SGD): the "modulo optimizer momentum" caveat of the
resume-continuity property. -/
def StateBlind {W S B : Type} (c : Collab W S B) : Prop :=
  ∀ (w : W) (s s2 : S) (lr thr : ℚ) (b : B),
    (c.step w s lr thr b).1 = (c.step w s2 lr thr b).1

/-- Decimal digit characters of `n`, most significant first. -/
def decChars (n : Nat) : List Char :=
  ((Nat.digits 10 n).reverse).map Nat.digitChar

/-- Concrete collaborator instance over naturals, for witnesses: the weight
update ignores the optimizer state while the state itself still evolves. -/
def natCollab : Collab Nat Nat Nat :=
  ⟨fun w s _ _ b => (w + b + 1, s + 1, 0), 0⟩

/-- Empty file system. -/
def emptyFS : FS Nat := fun _ => none

/-- Default configuration (all argparse defaults). -/
def cfgD : Config := {}

/-- Default configuration trained for 5 epochs. -/
def cfg5 : Config := { nEpochs := 5 }

/-- Configuration with a zero base learning rate. -/
def cfg0 : Config := { lr := 0 }

/-- File system holding a resume checkpoint and a pretrained checkpoint. -/
def fsTwo : FS Nat := fun p =>
  if p = "ck.pth" then some ⟨3, 10⟩
  else if p = "pre.pth" then some ⟨9, 20⟩ else none

/-- Configuration supplying both a resume path and a pretrained path. -/
def cfgBoth : Config := { resume := "ck.pth", pretrained := "pre.pth" }

/-- Configuration supplying a resume path that exists on no file system used
with it. -/
def cfgMiss : Config := { resume := "missing.pth" }

/-- `train` is the batch loop run with this epoch's scheduled learning rate,
the configured clip numerator, and the iteration counter starting at 1. -/
theorem train_def {W S B : Type} (c : Collab W S B) (cfg : Config)
    (batches : List B) (epoch : Nat) (w : W) (s : S) :
    train c cfg batches epoch w s =
      runBatches c (epochLR cfg epoch) cfg.clip batches w s 1 := rfl

/-- Claim C1: the learning rate the orchestrator applies for epoch `e ≥ 1`
is `lr0 * (1/2) ^ ((e - 1) / S)` (floor division), and epoch 1 uses the
base rate unchanged.  Determinism in the epoch index is inherent: `epochLR`
is a function of the configuration and the epoch alone. -/
theorem lr_schedule_correct (cfg : Config) (e : Nat) (he : 1 ≤ e) :
    epochLR cfg e = cfg.lr * (1/2) ^ ((e - 1) / cfg.step) ∧
      epochLR cfg 1 = cfg.lr := by
  refine ⟨rfl, ?_⟩
  simp [epochLR, adjust_learning_rate]

/-- Witness for C1 at epoch 8 with the argparse defaults. -/
theorem lr_schedule_correct_witness :
    1 ≤ 8 ∧ (epochLR cfgD 8 = cfgD.lr * (1/2) ^ ((8 - 1) / cfgD.step) ∧
      epochLR cfgD 1 = cfgD.lr) :=
  ⟨by decide, lr_schedule_correct cfgD 8 (by decide)⟩

/-- Claim C6: every batch of epoch `e` clips to threshold
`opt.clip / lr(e)` (the batch loop computes `clipThreshold cfg.clip lr`
with `lr` fixed for the whole epoch), and for a fixed clip the effective
threshold is inversely proportional to the learning rate: doubling the
rate halves the threshold. -/
theorem clip_scales_inversely (cfg : Config) (e : Nat) (lr : ℚ)
    (h1 : epochLR cfg e ≠ 0) (h2 : lr ≠ 0) :
    clipThreshold cfg.clip (epochLR cfg e) = some (cfg.clip / epochLR cfg e) ∧
      clipThreshold cfg.clip (2 * lr) =
        (clipThreshold cfg.clip lr).map (fun t => t / 2) := by
  refine ⟨by simp [clipThreshold, safeDiv, h1], ?_⟩
  have h2a : (2 : ℚ) * lr ≠ 0 := mul_ne_zero two_ne_zero h2
  have hd : cfg.clip / (2 * lr) = cfg.clip / lr / 2 := by
    rw [div_div, mul_comm]
  simp [clipThreshold, safeDiv, h2, h2a, hd]

/-- Witness for C6 with the default configuration at epoch 1 and rate 1/20. -/
theorem clip_scales_inversely_witness :
    epochLR cfgD 1 ≠ 0 ∧ (1 : ℚ)/20 ≠ 0 ∧
      (clipThreshold cfgD.clip (epochLR cfgD 1) =
          some (cfgD.clip / epochLR cfgD 1) ∧
        clipThreshold cfgD.clip (2 * ((1 : ℚ)/20)) =
          (clipThreshold cfgD.clip ((1 : ℚ)/20)).map (fun t => t / 2)) :=
  ⟨by norm_num [cfgD, epochLR, adjust_learning_rate], by norm_num,
    clip_scales_inversely cfgD 1 ((1 : ℚ)/20)
      (by norm_num [cfgD, epochLR, adjust_learning_rate]) (by norm_num)⟩

/-- Claim C10: a strictly positive base rate makes every epoch's learning
rate strictly positive, so the per-batch division `opt.clip / lr` is
well-defined; with base rate 0 the scheduled rate is 0 and the first batch
of the first trained epoch raises `ZeroDivisionError` (the whole `train`
call returns `none` on any nonempty batch list). -/
theorem lr_positive_clip_welldefined {W S B : Type} (c : Collab W S B)
    (cfg cfgz : Config) (e ez : Nat) (b : B) (bs : List B) (w : W) (s : S)
    (hpos : 0 < cfg.lr) (hzero : cfgz.lr = 0) :
    0 < epochLR cfg e ∧
      clipThreshold cfg.clip (epochLR cfg e) = some (cfg.clip / epochLR cfg e) ∧
      train c cfgz (b :: bs) ez w s = none := by
  have hp : 0 < epochLR cfg e := by
    have hhalf : (0 : ℚ) < (1/2) ^ ((e - 1) / cfg.step) := pow_pos (by norm_num) _
    exact mul_pos hpos hhalf
  have hl : epochLR cfgz ez = 0 := by
    simp [epochLR, adjust_learning_rate, hzero]
  refine ⟨hp, by simp [clipThreshold, safeDiv, hp.ne'], ?_⟩
  simp [train, runBatches, clipThreshold, safeDiv, hl]

/-- Witness for C10: defaults (lr = 1/10 > 0) versus a zero-rate config. -/
theorem lr_positive_clip_welldefined_witness :
    0 < cfgD.lr ∧ cfg0.lr = 0 ∧
      (0 < epochLR cfgD 3 ∧
        clipThreshold cfgD.clip (epochLR cfgD 3) =
          some (cfgD.clip / epochLR cfgD 3) ∧
        train natCollab cfg0 (7 :: []) 1 0 0 = none) :=
  ⟨by norm_num [cfgD], rfl,
    lr_positive_clip_welldefined natCollab cfgD cfg0 3 1 7 [] 0 0
      (by norm_num [cfgD]) rfl⟩

/-- When the learning rate is nonzero, the batch loop never raises and its
final weights and optimizer state are those of the log-free fold of the
same collaborator steps: logging does not feed back into training. -/
theorem runBatches_state {W S B : Type} (c : Collab W S B) (lr clip : ℚ)
    (h : lr ≠ 0) :
    ∀ (bs : List B) (w : W) (s : S) (i : Nat),
      (runBatches c lr clip bs w s i).map (fun r => (r.1, r.2.1)) =
        some (stepAll c lr (clip / lr) bs (w, s)) := by
  intro bs
  induction bs with
  | nil => intro w s i; rfl
  | cons b bs ih =>
    intro w s i
    have hct : clipThreshold clip lr = some (clip / lr) := by
      simp [clipThreshold, safeDiv, h]
    simp only [runBatches, hct, Option.map_map, stepAll]
    exact ih _ _ _

/-- When the learning rate is nonzero, the iterations at which the batch
loop emits a progress line are exactly the multiples of 100 among the
1-based iteration indices `i, i+1, ..., i+n-1`. -/
theorem runBatches_logs {W S B : Type} (c : Collab W S B) (lr clip : ℚ)
    (h : lr ≠ 0) :
    ∀ (bs : List B) (w : W) (s : S) (i : Nat),
      (runBatches c lr clip bs w s i).map (fun r => r.2.2.map Prod.fst) =
        some ((List.range' i bs.length).filter (fun k => decide (k % 100 = 0))) := by
  intro bs
  induction bs with
  | nil => intro w s i; rfl
  | cons b bs ih =>
    intro w s i
    have hct : clipThreshold clip lr = some (clip / lr) := by
      simp [clipThreshold, safeDiv, h]
    rcases hx : runBatches c lr clip bs (c.step w s lr (clip / lr) b).1
        (c.step w s lr (clip / lr) b).2.1 (i + 1) with _ | out
    · have hih := ih (c.step w s lr (clip / lr) b).1
        (c.step w s lr (clip / lr) b).2.1 (i + 1)
      rw [hx, Option.map_none'] at hih
      exact Option.noConfusion hih
    · have hih := ih (c.step w s lr (clip / lr) b).1
        (c.step w s lr (clip / lr) b).2.1 (i + 1)
      rw [hx] at hih
      simp only [Option.map_some'] at hih
      have hout : out.2.2.map Prod.fst =
          (List.range' (i + 1) bs.length).filter (fun k => decide (k % 100 = 0)) := by
        exact Option.some.inj hih
      simp only [runBatches, hct, hx, Option.map_some', List.length_cons,
        List.range'_succ]
      by_cases hi : i % 100 = 0
      · simp [List.filter_cons, hi, hout]
      · simp [List.filter_cons, hi, hout]

/-- Claim C5: every epoch's batch loop starts its iteration counter at 1
(each `train` call restarts it), a progress line is emitted exactly on the
iterations that are positive multiples of 100, and logging does not affect
the training state: the final (weights, optimizer state) equal the log-free
fold of the same steps. -/
theorem progress_logging_spec {W S B : Type} (c : Collab W S B) (cfg : Config)
    (e : Nat) (lr clip : ℚ) (bs : List B) (w : W) (s : S) (h : lr ≠ 0) :
    train c cfg bs e w s = runBatches c (epochLR cfg e) cfg.clip bs w s 1 ∧
      (runBatches c lr clip bs w s 1).map (fun r => (r.1, r.2.1)) =
        some (stepAll c lr (clip / lr) bs (w, s)) ∧
      (runBatches c lr clip bs w s 1).map (fun r => r.2.2.map Prod.fst) =
        some ((List.range' 1 bs.length).filter (fun k => decide (k % 100 = 0))) :=
  ⟨rfl, runBatches_state c lr clip h bs w s 1, runBatches_logs c lr clip h bs w s 1⟩

/-- Witness for C5 on a two-batch epoch with unit rate and clip. -/
theorem progress_logging_spec_witness :
    (1 : ℚ) ≠ 0 ∧
      (train natCollab cfgD (5 :: 6 :: []) 1 0 0 =
          runBatches natCollab (epochLR cfgD 1) cfgD.clip (5 :: 6 :: []) 0 0 1 ∧
        (runBatches natCollab 1 1 (5 :: 6 :: []) 0 0 1).map (fun r => (r.1, r.2.1)) =
          some (stepAll natCollab 1 ((1 : ℚ) / 1) (5 :: 6 :: []) (0, 0)) ∧
        (runBatches natCollab 1 1 (5 :: 6 :: []) 0 0 1).map
            (fun r => r.2.2.map Prod.fst) =
          some ((List.range' 1 (5 :: 6 :: []).length).filter
            (fun k => decide (k % 100 = 0)))) :=
  ⟨by norm_num, progress_logging_spec natCollab cfgD 1 1 1 (5 :: 6 :: []) 0 0 (by norm_num)⟩

/-- Claim C2: if both a resume path and a pretrained path are supplied and
both files exist, the orchestrator loads the resume checkpoint first and
then applies the pretrained weights on top: the starting epoch is the
resumed epoch + 1, while the effective initial weights are the pretrained
file's. -/
theorem resume_pretrained_precedence {W : Type} (fs : FS W) (cfg : Config)
    (w : W) (ck pk : Checkpoint W)
    (hr : cfg.resume ≠ "") (hp : cfg.pretrained ≠ "")
    (hfr : fs cfg.resume = some ck) (hfp : fs cfg.pretrained = some pk) :
    (mainInit fs cfg w).1 = ck.epoch + 1 ∧ (mainInit fs cfg w).2.1 = pk.model := by
  simp [mainInit, resumeStep, pretrainedStep, hr, hp, hfr, hfp]

/-- Witness for C2 on a concrete two-file file system. -/
theorem resume_pretrained_precedence_witness :
    cfgBoth.resume ≠ "" ∧ cfgBoth.pretrained ≠ "" ∧
      fsTwo cfgBoth.resume = some ⟨3, 10⟩ ∧
      fsTwo cfgBoth.pretrained = some ⟨9, 20⟩ ∧
      ((mainInit fsTwo cfgBoth 0).1 = (⟨3, 10⟩ : Checkpoint Nat).epoch + 1 ∧
        (mainInit fsTwo cfgBoth 0).2.1 = (⟨9, 20⟩ : Checkpoint Nat).model) :=
  ⟨by decide, by decide, by decide, by decide,
    resume_pretrained_precedence fsTwo cfgBoth 0 ⟨3, 10⟩ ⟨9, 20⟩
      (by decide) (by decide) (by decide) (by decide)⟩

/-- Claim C8: a supplied resume path whose file is missing (and no usable
pretrained file either) does not raise: the configured start epoch and the
fresh weights are kept, and a not-found notice is logged. -/
theorem missing_resume_graceful {W : Type} (fs : FS W) (cfg : Config) (w : W)
    (hfr : fs cfg.resume = none) (hfp : fs cfg.pretrained = none)
    (hne : cfg.resume ≠ "") :
    (mainInit fs cfg w).1 = cfg.start_epoch ∧ (mainInit fs cfg w).2.1 = w ∧
      ("===> no checkpoint found at " ++ cfg.resume) ∈ (mainInit fs cfg w).2.2 := by
  by_cases hp : cfg.pretrained = "" <;>
    simp [mainInit, resumeStep, pretrainedStep, hne, hfr, hfp, hp]

/-- Witness for C8: resume path "missing.pth" on the empty file system. -/
theorem missing_resume_graceful_witness :
    emptyFS cfgMiss.resume = none ∧ emptyFS cfgMiss.pretrained = none ∧
      cfgMiss.resume ≠ "" ∧
      ((mainInit emptyFS cfgMiss 0).1 = cfgMiss.start_epoch ∧
        (mainInit emptyFS cfgMiss 0).2.1 = 0 ∧
        ("===> no checkpoint found at " ++ cfgMiss.resume) ∈
          (mainInit emptyFS cfgMiss 0).2.2) :=
  ⟨rfl, rfl, by decide,
    missing_resume_graceful emptyFS cfgMiss 0 rfl rfl (by decide)⟩

/-- Peeling one decimal digit off `decChars`. -/
theorem decChars_append (n : Nat) (hn : n ≠ 0) :
    decChars n = decChars (n / 10) ++ [Nat.digitChar (n % 10)] := by
  unfold decChars
  rw [Nat.digits_def' (by norm_num : (1:ℕ) < 10) (Nat.pos_of_ne_zero hn)]
  simp

/-- Characterization of the fuel-based core of `Nat.repr` with enough fuel:
it prepends the decimal digit characters of `n` (or "0"). -/
theorem toDigitsCore_spec :
    ∀ (f n : Nat) (l : List Char), 0 < f → n < 10 ^ f →
      Nat.toDigitsCore 10 f n l = (if n = 0 then ['0'] else decChars n) ++ l := by
  intro f
  induction f with
  | zero => intro n l h0 _; exact absurd h0 (by simp)
  | succ f ih =>
    intro n l _ hlt
    by_cases h10 : n / 10 = 0
    · have hn10 : n < 10 := by
        rcases Nat.lt_or_ge n 10 with hc | hc
        · exact hc
        · exact absurd h10 (by
            have : 1 ≤ n / 10 := (Nat.le_div_iff_mul_le (by norm_num)).mpr (by omega)
            omega)
      simp only [Nat.toDigitsCore, h10, if_true]
      by_cases hn : n = 0
      · subst hn; simp; rfl
      · rw [if_neg hn]
        have hd : Nat.digits 10 n = [n] := Nat.digits_of_lt 10 n hn hn10
        simp [decChars, hd, Nat.mod_eq_of_lt hn10]
    · have hn : n ≠ 0 := fun h => h10 (by simp [h])
      have hf : 0 < f := by
        rcases Nat.eq_zero_or_pos f with hf0 | hf0
        · subst hf0
          rw [pow_one] at hlt
          exact absurd (Nat.div_eq_of_lt hlt) h10
        · exact hf0
      have hdiv : n / 10 < 10 ^ f := by
        rw [Nat.div_lt_iff_lt_mul (by norm_num : 0 < 10)]
        calc n < 10 ^ (f + 1) := hlt
        _ = 10 ^ f * 10 := by rw [pow_succ]
      simp only [Nat.toDigitsCore, h10, if_false]
      rw [ih (n / 10) (Nat.digitChar (n % 10) :: l) hf hdiv, if_neg h10,
        if_neg hn, decChars_append n hn, List.append_assoc]
      rfl

/-- `Nat.repr` renders the decimal digit characters. -/
theorem nat_repr_eq (n : Nat) :
    Nat.repr n = ((if n = 0 then ['0'] else decChars n)).asString := by
  have hlt : n < 10 ^ (n + 1) := by
    calc n < 10 ^ n := Nat.lt_pow_self (by norm_num) n
    _ ≤ 10 ^ (n + 1) := Nat.pow_le_pow_right (by norm_num) (Nat.le_succ n)
  have hdef : Nat.repr n = (Nat.toDigitsCore 10 (n + 1) n []).asString := rfl
  rw [hdef, toDigitsCore_spec (n + 1) n [] (Nat.succ_pos n) hlt, List.append_nil]

/-- `Nat.digitChar` is injective on decimal digits. -/
theorem digitChar_inj_lt {a b : Nat} (ha : a < 10) (hb : b < 10)
    (h : Nat.digitChar a = Nat.digitChar b) : a = b := by
  have key : ∀ x : Fin 10, ∀ y : Fin 10,
      Nat.digitChar x.val = Nat.digitChar y.val → x = y := by decide
  exact congrArg Fin.val (key ⟨a, ha⟩ ⟨b, hb⟩ h)

/-- Mapping `Nat.digitChar` over lists of decimal digits is injective. -/
theorem map_digitChar_inj :
    ∀ (l1 l2 : List Nat), (∀ d ∈ l1, d < 10) → (∀ d ∈ l2, d < 10) →
      l1.map Nat.digitChar = l2.map Nat.digitChar → l1 = l2
  | [], [], _, _, _ => rfl
  | [], _ :: _, _, _, h => by simp at h
  | _ :: _, [], _, _, h => by simp at h
  | d1 :: l1, d2 :: l2, h1, h2, h => by
    simp only [List.map_cons, List.cons.injEq] at h
    have hd := digitChar_inj_lt (h1 d1 (by simp)) (h2 d2 (by simp)) h.1
    have ht := map_digitChar_inj l1 l2 (fun d hd2 => h1 d (by simp [hd2]))
      (fun d hd2 => h2 d (by simp [hd2])) h.2
    rw [hd, ht]

/-- `decChars` is injective. -/
theorem decChars_inj {m n : Nat} (h : decChars m = decChars n) : m = n := by
  unfold decChars at h
  have hm : ∀ d ∈ (Nat.digits 10 m).reverse, d < 10 := fun d hd =>
    Nat.digits_lt_base (by norm_num) (List.mem_reverse.mp hd)
  have hn : ∀ d ∈ (Nat.digits 10 n).reverse, d < 10 := fun d hd =>
    Nat.digits_lt_base (by norm_num) (List.mem_reverse.mp hd)
  have hrev := map_digitChar_inj _ _ hm hn h
  have hdig : Nat.digits 10 m = Nat.digits 10 n := List.reverse_injective hrev
  calc m = Nat.ofDigits 10 (Nat.digits 10 m) := (Nat.ofDigits_digits 10 m).symm
  _ = Nat.ofDigits 10 (Nat.digits 10 n) := by rw [hdig]
  _ = n := Nat.ofDigits_digits 10 n

/-- A nonzero number never renders as the single character "0". -/
theorem decChars_ne_zero_list {n : Nat} (hn : n ≠ 0) : decChars n ≠ ['0'] := by
  intro h
  unfold decChars at h
  rcases hrev : (Nat.digits 10 n).reverse with _ | ⟨d, rest⟩
  · rw [hrev] at h; simp at h
  · rw [hrev] at h
    simp only [List.map_cons, List.cons.injEq] at h
    have hrest : rest = [] := by
      have h2 := h.2
      simpa using h2
    have hdlt : d < 10 := by
      have hdmem : d ∈ Nat.digits 10 n := by
        refine List.mem_reverse.mp ?_
        rw [hrev]; simp
      exact Nat.digits_lt_base (by norm_num) hdmem
    have h01 : Nat.digitChar 0 = Char.ofNat 48 := rfl
    have hd0 : d = 0 := by
      refine digitChar_inj_lt hdlt (by norm_num) ?_
      rw [h.1]; rfl
    have hdig : Nat.digits 10 n = [0] := by
      have hr : (Nat.digits 10 n).reverse = [0] := by rw [hrev, hrest, hd0]
      have := congrArg List.reverse hr
      simpa using this
    have hnz : n = 0 := by
      have hod := Nat.ofDigits_digits 10 n
      rw [hdig] at hod
      simpa [Nat.ofDigits] using hod.symm
    exact hn hnz

/-- `Nat.repr` is injective: distinct numbers render as distinct strings. -/
theorem nat_repr_inj {m n : Nat} (h : Nat.repr m = Nat.repr n) : m = n := by
  rw [nat_repr_eq, nat_repr_eq] at h
  have hL : (if m = 0 then ['0'] else decChars m) =
      (if n = 0 then ['0'] else decChars n) := congrArg String.data h
  by_cases hm : m = 0 <;> by_cases hn : n = 0
  · rw [hm, hn]
  · rw [if_pos hm, if_neg hn] at hL
    exact absurd hL.symm (decChars_ne_zero_list hn)
  · rw [if_neg hm, if_pos hn] at hL
    exact absurd hL (decChars_ne_zero_list hm)
  · rw [if_neg hm, if_neg hn] at hL
    exact decChars_inj hL

/-- Checkpoint file names are determined injectively by the epoch number. -/
theorem modelOutPath_inj {e1 e2 : Nat} (h : modelOutPath e1 = modelOutPath e2) :
    e1 = e2 := by
  have hd := congrArg String.data h
  simp only [modelOutPath, String.data_append] at hd
  have h1 := List.append_cancel_right hd
  have h2 := List.append_cancel_left h1
  exact nat_repr_inj (String.ext h2)

/-- Claim C4: saving a checkpoint for (epoch, weights) and loading the
resulting file returns exactly the stored epoch and weights; the file name
is injective in the epoch, so a save for one epoch never overwrites (or even
touches) a different epoch's file. -/
theorem checkpoint_roundtrip_unique {W : Type} (fs : FS W) (e1 e2 : Nat)
    (M : W) (h : e1 ≠ e2) :
    load (save_checkpoint fs M e1) (modelOutPath e1) = some ⟨e1, M⟩ ∧
      modelOutPath e1 ≠ modelOutPath e2 ∧
      load (save_checkpoint fs M e1) (modelOutPath e2) = load fs (modelOutPath e2) := by
  have hne : modelOutPath e1 ≠ modelOutPath e2 := fun hp => h (modelOutPath_inj hp)
  refine ⟨?_, hne, ?_⟩
  · simp [load, save_checkpoint]
  · simp only [load, save_checkpoint]
    rw [if_neg (Ne.symm hne)]

/-- Witness for C4 at epochs 7 and 12 with weights 42. -/
theorem checkpoint_roundtrip_unique_witness :
    7 ≠ 12 ∧
      (load (save_checkpoint emptyFS 42 7) (modelOutPath 7) = some ⟨7, 42⟩ ∧
        modelOutPath 7 ≠ modelOutPath 12 ∧
        load (save_checkpoint emptyFS 42 7) (modelOutPath 12) =
          load emptyFS (modelOutPath 12)) :=
  ⟨by decide, checkpoint_roundtrip_unique emptyFS 7 12 42 (by decide)⟩

/-- `saveRange` leaves paths outside the saved epoch range untouched. -/
theorem saveRange_other {W : Type} (w : W) :
    ∀ (n : Nat) (fs : FS W) (e : Nat) (p : String),
      (∀ k, k < n → p ≠ modelOutPath (e + k)) → saveRange w fs e n p = fs p
  | 0, _, _, _, _ => rfl
  | n + 1, fs, e, p, hp => by
    have h0 : p ≠ modelOutPath e := by
      have h00 := hp 0 (Nat.succ_pos n)
      simpa using h00
    have hrest : ∀ k, k < n → p ≠ modelOutPath (e + 1 + k) := by
      intro k hk
      have hpk := hp (k + 1) (by omega)
      have harr : e + (k + 1) = e + 1 + k := by omega
      rw [harr] at hpk
      exact hpk
    show saveRange w (save_checkpoint fs w e) (e + 1) n p = fs p
    rw [saveRange_other w n (save_checkpoint fs w e) (e + 1) p hrest]
    simp [save_checkpoint, h0]

/-- Each epoch in the saved range is found at its own path with the stored
weights. -/
theorem saveRange_lookup {W : Type} (w : W) :
    ∀ (n : Nat) (fs : FS W) (e k : Nat), k < n →
      saveRange w fs e n (modelOutPath (e + k)) = some ⟨e + k, w⟩
  | 0, _, _, _, hk => absurd hk (Nat.not_lt_zero _)
  | n + 1, fs, e, 0, _ => by
    show saveRange w (save_checkpoint fs w e) (e + 1) n (modelOutPath (e + 0)) =
      some ⟨e + 0, w⟩
    have hother : ∀ j, j < n → modelOutPath (e + 0) ≠ modelOutPath (e + 1 + j) := by
      intro j hj hEq
      have := modelOutPath_inj hEq
      omega
    rw [saveRange_other w n _ _ _ hother]
    simp [save_checkpoint]
  | n + 1, fs, e, k + 1, hk => by
    show saveRange w (save_checkpoint fs w e) (e + 1) n (modelOutPath (e + (k + 1))) =
      some ⟨e + (k + 1), w⟩
    have harr : e + (k + 1) = e + 1 + k := by omega
    rw [harr]
    exact saveRange_lookup w n (save_checkpoint fs w e) (e + 1) k (by omega)

/-- With an empty dataset provider every epoch is a no-op except for its
checkpoint: the loop succeeds, weights and optimizer state are unchanged,
and one file per epoch is written. -/
theorem runEpochs_empty {W S B : Type} (c : Collab W S B) (cfg : Config) :
    ∀ (n e : Nat) (w : W) (s : S) (fs : FS W),
      runEpochs c cfg (fun _ => ([] : List B)) n e w s fs =
        some (w, s, saveRange w fs e n)
  | 0, _, _, _, _ => rfl
  | n + 1, e, w, s, fs => by
    have h1 : train c cfg ((fun _ => ([] : List B)) e) e w s = some (w, s, []) := rfl
    simp only [runEpochs, h1]
    exact runEpochs_empty c cfg n (e + 1) w s (save_checkpoint fs w e)

/-- Claim C7: if the dataset provider yields no batches, every epoch in the
range completes with zero optimization steps, the weights (and optimizer
state) are unchanged, no error is raised (the loop returns `some`), and a
checkpoint is still written for every epoch of the range. -/
theorem empty_dataset_graceful {W S B : Type} (c : Collab W S B) (cfg : Config)
    (n e0 k : Nat) (w : W) (s : S) (fs : FS W) (hk : k < n) :
    runEpochs c cfg (fun _ => ([] : List B)) n e0 w s fs =
        some (w, s, saveRange w fs e0 n) ∧
      saveRange w fs e0 n (modelOutPath (e0 + k)) = some ⟨e0 + k, w⟩ :=
  ⟨runEpochs_empty c cfg n e0 w s fs, saveRange_lookup w n fs e0 k hk⟩

/-- Witness for C7: three empty epochs starting at epoch 1, checking the
epoch-2 checkpoint. -/
theorem empty_dataset_graceful_witness :
    1 < 3 ∧
      (runEpochs natCollab cfgD (fun _ => ([] : List Nat)) 3 1 5 0 emptyFS =
          some (5, 0, saveRange 5 emptyFS 1 3) ∧
        saveRange 5 emptyFS 1 3 (modelOutPath (1 + 1)) = some ⟨1 + 1, 5⟩) :=
  ⟨by decide, empty_dataset_graceful natCollab cfgD 3 1 1 5 0 emptyFS (by decide)⟩

/-- Claim C9: two executions differing only in the drawn random seed have
identical training computations: the per-epoch learning rates, the weight
updates, and the checkpoints written are the same, because the seed reaches
only the printed seed line (main.py lines 36-37) and is never consumed by
the scheduler, the loop, or the checkpoint manager. -/
theorem seed_noninterference {W S B : Type} (c : Collab W S B) (cfg : Config)
    (batchesOf : Nat → List B) (fs : FS W) (w0 : W) (seed1 seed2 : Nat) :
    (mainRun c cfg batchesOf fs w0 seed1).outcome =
        (mainRun c cfg batchesOf fs w0 seed2).outcome ∧
      (mainRun c cfg batchesOf fs w0 seed1).startEpoch =
        (mainRun c cfg batchesOf fs w0 seed2).startEpoch ∧
      (mainRun c cfg batchesOf fs w0 seed1).initWeights =
        (mainRun c cfg batchesOf fs w0 seed2).initWeights :=
  ⟨rfl, rfl, rfl⟩

/-- The epoch loop ignores the `resume` field of the configuration (it is
consumed before the loop starts). -/
theorem runEpochs_update_resume {W S B : Type} (c : Collab W S B) (cfg : Config)
    (r0 : String) (batchesOf : Nat → List B) :
    ∀ (n e : Nat) (w : W) (s : S) (fs : FS W),
      runEpochs c { cfg with resume := r0 } batchesOf n e w s fs =
        runEpochs c cfg batchesOf n e w s fs
  | 0, _, _, _, _ => rfl
  | n + 1, e, w, s, fs => by
    have htr : train c { cfg with resume := r0 } (batchesOf e) e w s =
        train c cfg (batchesOf e) e w s := rfl
    simp only [runEpochs, htr]
    cases hx : train c cfg (batchesOf e) e w s with
    | none => rfl
    | some r =>
      exact runEpochs_update_resume c cfg r0 batchesOf n (e + 1) r.1 r.2.1
        (save_checkpoint fs r.1 e)

/-- Splitting the epoch loop: running `m + n` epochs is running `m`, then
running `n` more from the resulting state. -/
theorem runEpochs_add {W S B : Type} (c : Collab W S B) (cfg : Config)
    (batchesOf : Nat → List B) :
    ∀ (m n e : Nat) (w : W) (s : S) (fs : FS W),
      runEpochs c cfg batchesOf (m + n) e w s fs =
        (runEpochs c cfg batchesOf m e w s fs).bind
          (fun r => runEpochs c cfg batchesOf n (e + m) r.1 r.2.1 r.2.2)
  | 0, n, e, w, s, fs => by simp [runEpochs]
  | m + 1, n, e, w, s, fs => by
    have hh : m + 1 + n = (m + n) + 1 := by omega
    rw [hh]
    simp only [runEpochs]
    cases hx : train c cfg (batchesOf e) e w s with
    | none => rfl
    | some r =>
      show runEpochs c cfg batchesOf (m + n) (e + 1) r.1 r.2.1
          (save_checkpoint fs r.1 e) =
        (runEpochs c cfg batchesOf m (e + 1) r.1 r.2.1
          (save_checkpoint fs r.1 e)).bind
          (fun r2 => runEpochs c cfg batchesOf n (e + (m + 1)) r2.1 r2.2.1 r2.2.2)
      rw [runEpochs_add c cfg batchesOf m n (e + 1) r.1 r.2.1
        (save_checkpoint fs r.1 e)]
      have he2 : e + 1 + m = e + (m + 1) := by omega
      rw [he2]

/-- After a successful run of `n + 1` epochs starting at epoch `e`, the file
of the last trained epoch `e + n` holds exactly the final weights. -/
theorem runEpochs_final_checkpoint {W S B : Type} (c : Collab W S B)
    (cfg : Config) (batchesOf : Nat → List B) :
    ∀ (n e : Nat) (w : W) (s : S) (fs : FS W) (w2 : W) (s2 : S) (fs2 : FS W),
      runEpochs c cfg batchesOf (n + 1) e w s fs = some (w2, s2, fs2) →
      fs2 (modelOutPath (e + n)) = some ⟨e + n, w2⟩
  | 0, e, w, s, fs, w2, s2, fs2 => by
    intro h
    simp only [runEpochs] at h
    cases hx : train c cfg (batchesOf e) e w s with
    | none => rw [hx] at h; exact Option.noConfusion h
    | some r =>
      rw [hx] at h
      have h2 : (r.1, r.2.1, save_checkpoint fs r.1 e) = (w2, s2, fs2) :=
        Option.some.inj h
      have hw : r.1 = w2 := congrArg (fun p => p.1) h2
      have hfs : save_checkpoint fs r.1 e = fs2 := congrArg (fun p => p.2.2) h2
      rw [← hfs, ← hw]
      simp [save_checkpoint]
  | n + 1, e, w, s, fs, w2, s2, fs2 => by
    intro h
    simp only [runEpochs] at h
    cases hx : train c cfg (batchesOf e) e w s with
    | none => rw [hx] at h; exact Option.noConfusion h
    | some r =>
      rw [hx] at h
      have hrec := runEpochs_final_checkpoint c cfg batchesOf n (e + 1) r.1 r.2.1
        (save_checkpoint fs r.1 e) w2 s2 fs2 h
      have harr : e + 1 + n = e + (n + 1) := by omega
      rw [harr] at hrec
      exact hrec

/-- For a state-blind collaborator the weight trajectory of the batch loop
does not depend on the optimizer state it starts from. -/
theorem runBatches_fst_blind {W S B : Type} (c : Collab W S B)
    (hu : StateBlind c) (lr clip : ℚ) :
    ∀ (bs : List B) (w : W) (s s2 : S) (i : Nat),
      (runBatches c lr clip bs w s i).map (fun r => r.1) =
        (runBatches c lr clip bs w s2 i).map (fun r => r.1)
  | [], _, _, _, _ => rfl
  | b :: bs, w, s, s2, i => by
    cases hct : clipThreshold clip lr with
    | none => simp [runBatches, hct]
    | some thr =>
      simp only [runBatches, hct, Option.map_map]
      have hw : (c.step w s2 lr thr b).1 = (c.step w s lr thr b).1 :=
        hu w s2 s lr thr b
      rw [hw]
      exact runBatches_fst_blind c hu lr clip bs (c.step w s lr thr b).1
        (c.step w s lr thr b).2.1 (c.step w s2 lr thr b).2.1 (i + 1)

/-- For a state-blind collaborator the weight trajectory and all checkpoints
written by the epoch loop do not depend on the optimizer state it starts
from: only the optimizer-state component may differ. -/
theorem runEpochs_blind {W S B : Type} (c : Collab W S B) (hu : StateBlind c)
    (cfg : Config) (batchesOf : Nat → List B) :
    ∀ (n e : Nat) (w : W) (s s2 : S) (fs : FS W),
      (runEpochs c cfg batchesOf n e w s fs).map (fun r => (r.1, r.2.2)) =
        (runEpochs c cfg batchesOf n e w s2 fs).map (fun r => (r.1, r.2.2))
  | 0, _, _, _, _, _ => rfl
  | n + 1, e, w, s, s2, fs => by
    have hb : (train c cfg (batchesOf e) e w s).map (fun r => r.1) =
        (train c cfg (batchesOf e) e w s2).map (fun r => r.1) :=
      runBatches_fst_blind c hu (epochLR cfg e) cfg.clip (batchesOf e) w s s2 1
    cases hx : train c cfg (batchesOf e) e w s with
    | none =>
      rw [hx] at hb
      cases hx2 : train c cfg (batchesOf e) e w s2 with
      | none => simp [runEpochs, hx, hx2]
      | some r2 => rw [hx2] at hb; simp at hb
    | some r =>
      rw [hx] at hb
      cases hx2 : train c cfg (batchesOf e) e w s2 with
      | none => rw [hx2] at hb; simp at hb
      | some r2 =>
        rw [hx2] at hb
        simp only [Option.map_some'] at hb
        have hw : r2.1 = r.1 := (Option.some.inj hb).symm
        simp only [runEpochs, hx, hx2]
        rw [hw]
        exact runEpochs_blind c hu cfg batchesOf n (e + 1) r.1 r.2.1 r2.2.1
          (save_checkpoint fs r.1 e)

/-- Claim C3: run epochs 1-3 (a checkpoint is written after each), then
resume from the epoch-3 checkpoint: the resume sets the start epoch to 4
and restores the saved weights, and for a collaborator whose weight update
does not read the optimizer state (the "modulo freshly re-initialized
momentum" caveat) the epoch-5 weights of the resumed run equal those of the
uninterrupted run over epochs 1-5 with the same data order. -/
theorem resume_continuity {W S B : Type} (c : Collab W S B) (cfg : Config)
    (batchesOf : Nat → List B) (w0 wf : W) (fs0 : FS W) (w3 : W) (s3 : S)
    (fs3 : FS W) (seed1 seed2 : Nat)
    (hu : StateBlind c)
    (hn : cfg.nEpochs = 5) (hs : cfg.start_epoch = 1)
    (hr : cfg.resume = "") (hp : cfg.pretrained = "")
    (h3 : runEpochs c cfg batchesOf 3 1 w0 c.initState fs0 = some (w3, s3, fs3)) :
    (mainInit fs3 { cfg with resume := modelOutPath 3 } wf).1 = 4 ∧
      (mainInit fs3 { cfg with resume := modelOutPath 3 } wf).2.1 = w3 ∧
      ((mainRun c { cfg with resume := modelOutPath 3 } batchesOf fs3 wf
          seed2).outcome).map (fun r => r.1) =
        ((mainRun c cfg batchesOf fs0 w0 seed1).outcome).map (fun r => r.1) := by
  have hne : modelOutPath 3 ≠ "" := by decide
  have hck : fs3 (modelOutPath (1 + 2)) = some ⟨1 + 2, w3⟩ :=
    runEpochs_final_checkpoint c cfg batchesOf 2 1 w0 c.initState fs0 w3 s3 fs3 h3
  have hck3 : fs3 (modelOutPath 3) = some ⟨3, w3⟩ := by
    have h12 : (1 : Nat) + 2 = 3 := rfl
    rw [h12] at hck
    exact hck
  have hres : resumeStep fs3 { cfg with resume := modelOutPath 3 } wf =
      (4, w3, ["===> loading checkpoint: " ++ modelOutPath 3]) := by
    simp [resumeStep, hne, hck3]
  have hpre : pretrainedStep fs3 { cfg with resume := modelOutPath 3 } w3 =
      (w3, []) := by
    simp [pretrainedStep, hp]
  have hinit : mainInit fs3 { cfg with resume := modelOutPath 3 } wf =
      (4, w3, ["===> loading checkpoint: " ++ modelOutPath 3]) := by
    simp [mainInit, hres, hpre]
  refine ⟨by rw [hinit], by rw [hinit], ?_⟩
  have hout2 : (mainRun c { cfg with resume := modelOutPath 3 } batchesOf fs3 wf
      seed2).outcome = runEpochs c cfg batchesOf 2 4 w3 c.initState fs3 := by
    simp only [mainRun, hinit]
    have hnE : ({ cfg with resume := modelOutPath 3 } : Config).nEpochs = 5 := hn
    rw [hnE]
    norm_num
    exact runEpochs_update_resume c cfg (modelOutPath 3) batchesOf 2 4 w3
      c.initState fs3
  have hinit0 : mainInit fs0 cfg w0 = (cfg.start_epoch, w0, []) := by
    simp [mainInit, resumeStep, pretrainedStep, hr, hp]
  have hout1 : (mainRun c cfg batchesOf fs0 w0 seed1).outcome =
      runEpochs c cfg batchesOf 5 1 w0 c.initState fs0 := by
    simp only [mainRun, hinit0]
    rw [hs, hn]
  have hsplit : runEpochs c cfg batchesOf 5 1 w0 c.initState fs0 =
      runEpochs c cfg batchesOf 2 4 w3 s3 fs3 := by
    have hadd := runEpochs_add c cfg batchesOf 3 2 1 w0 c.initState fs0
    rw [show (3 : Nat) + 2 = 5 from rfl] at hadd
    rw [hadd, h3]
    show runEpochs c cfg batchesOf 2 (1 + 3) w3 s3 fs3 = _
    norm_num
  rw [hout2, hout1, hsplit]
  have hblind := runEpochs_blind c hu cfg batchesOf 2 4 w3 c.initState s3 fs3
  have hcomp := congrArg (Option.map (fun p : W × FS W => p.1)) hblind
  rw [Option.map_map, Option.map_map] at hcomp
  exact hcomp

/-- Witness for C3: three empty epochs, resume from the epoch-3 file, run to
epoch 5; compared against the uninterrupted five-epoch run. -/
theorem resume_continuity_witness :
    StateBlind natCollab ∧ cfg5.nEpochs = 5 ∧ cfg5.start_epoch = 1 ∧
      cfg5.resume = "" ∧ cfg5.pretrained = "" ∧
      runEpochs natCollab cfg5 (fun _ => ([] : List Nat)) 3 1 0 0 emptyFS =
        some (0, 0, save_checkpoint
          (save_checkpoint (save_checkpoint emptyFS 0 1) 0 2) 0 3) ∧
      ((mainInit (save_checkpoint
            (save_checkpoint (save_checkpoint emptyFS 0 1) 0 2) 0 3)
          { cfg5 with resume := modelOutPath 3 } 9).1 = 4 ∧
        (mainInit (save_checkpoint
            (save_checkpoint (save_checkpoint emptyFS 0 1) 0 2) 0 3)
          { cfg5 with resume := modelOutPath 3 } 9).2.1 = 0 ∧
        ((mainRun natCollab { cfg5 with resume := modelOutPath 3 }
            (fun _ => ([] : List Nat))
            (save_checkpoint (save_checkpoint (save_checkpoint emptyFS 0 1) 0 2) 0 3)
            9 22).outcome).map (fun r => r.1) =
          ((mainRun natCollab cfg5 (fun _ => ([] : List Nat)) emptyFS 0
            11).outcome).map (fun r => r.1)) :=
  ⟨fun _ _ _ _ _ _ => rfl, rfl, rfl, rfl, rfl, rfl,
    resume_continuity natCollab cfg5 (fun _ => ([] : List Nat)) 0 9 emptyFS 0 0
      (save_checkpoint (save_checkpoint (save_checkpoint emptyFS 0 1) 0 2) 0 3)
      11 22 (fun _ _ _ _ _ _ => rfl) rfl rfl rfl rfl rfl⟩

end DRRN
